import Mathlib

/-!
# Particle field and smooth scroll of `script.js`

A shallow embedding of the numeric core of `src/script.js`: the `Particle`
class (constructor and `update`), `randomRange`, `initParticles`, `animate`,
the pointer record `mouse`, and the `easeInOutCubic` easing used by the
smooth-scroll `step`.

JavaScript numbers are idealised: a number is either an exact element of an
ordered field `K` (rounding and overflow of IEEE doubles are not modelled)
or the value `nan`.  `Math.sqrt` is a parameter `sqrt : K → K` of the
definitions that call it; the theorems that depend on its value assume
`ExactSqrt sqrt`, which holds for `Real.sqrt`.  `Math.random` is a stream
`random : Nat → K` together with a counter of the calls made so far.
-/

namespace Script

/-! ## Numbers -/

/-- A JavaScript number: `fin a` is the finite value `a`, `nan` is a
non-finite value.  Comparisons with `nan` are false and every arithmetic
operation with a `nan` operand is `nan`, as for NaN. -/
inductive JSNum (K : Type) where
  | nan : JSNum K
  | fin : K → JSNum K

namespace JSNum

variable {K : Type} [LinearOrderedField K]

/-- The JavaScript `a + b`. -/
def add : JSNum K → JSNum K → JSNum K
  | fin a, fin b => fin (a + b)
  | _, _ => nan

/-- The JavaScript `a - b`. -/
def sub : JSNum K → JSNum K → JSNum K
  | fin a, fin b => fin (a - b)
  | _, _ => nan

/-- The JavaScript `a * b`. -/
def mul : JSNum K → JSNum K → JSNum K
  | fin a, fin b => fin (a * b)
  | _, _ => nan

/-- The JavaScript `a / b`.  A zero divisor gives a non-finite value: NaN for
`0 / 0`, an infinity otherwise; both are `nan` here. -/
def div : JSNum K → JSNum K → JSNum K
  | fin a, fin b => if b = 0 then nan else fin (a / b)
  | _, _ => nan

instance : Add (JSNum K) := ⟨add⟩
instance : Sub (JSNum K) := ⟨sub⟩
instance : Mul (JSNum K) := ⟨mul⟩
instance : Div (JSNum K) := ⟨div⟩

/-- The JavaScript `a < b`: false as soon as one side is NaN. -/
def lt : JSNum K → JSNum K → Bool
  | fin a, fin b => decide (a < b)
  | _, _ => false

/-- The JavaScript `a > b`: false as soon as one side is NaN. -/
def gt : JSNum K → JSNum K → Bool
  | fin a, fin b => decide (a > b)
  | _, _ => false

/-- The call `Math.sqrt(a)`: NaN for NaN and for a negative argument. -/
def msqrt (sqrt : K → K) : JSNum K → JSNum K
  | fin a => if a < 0 then nan else fin (sqrt a)
  | nan => nan

/-- The numeric value of a variable that may hold `undefined`
(`none`): `undefined` converts to NaN in arithmetic. -/
def ofUndefined {K : Type} : Option K → JSNum K
  | some a => fin a
  | none => nan

end JSNum

open JSNum

/-- The function `sqrt` returns the non-negative square root of every
non-negative argument. -/
def ExactSqrt {K : Type} [LinearOrderedField K] (sqrt : K → K) : Prop :=
  ∀ a : K, 0 ≤ a → 0 ≤ sqrt a ∧ sqrt a * sqrt a = a

/-! ## Data -/

/-- The drawing surface: only `canvas.width` and `canvas.height` are read. -/
structure Canvas (K : Type) where
  width : K
  height : K

/-- The record `mouse`: `x` and `y` are `undefined` (`none`) until the first
`mousemove`; `radius` is set by the literal and never assigned. -/
structure Mouse (K : Type) where
  x : Option K
  y : Option K
  radius : K

/-- An instance of `class Particle`.  `x` and `y` are reassigned by `update`
and may become NaN; the other fields are assigned once, in the constructor,
from finite numbers. -/
structure Particle (K : Type) where
  x : JSNum K
  y : JSNum K
  size : K
  baseX : JSNum K
  baseY : JSNum K
  density : K
  vx : K
  vy : K

/-- The program variables: the canvas size, `mouse`, `particlesArray`, and
the number of `Math.random()` calls made so far. -/
structure State (K : Type) where
  canvas : Canvas K
  mouse : Mouse K
  particlesArray : List (Particle K)
  calls : Nat

section Defs

variable {K : Type} [LinearOrderedField K]

/-- The initial value of `mouse` (lines 13-17). -/
def mouse : Mouse K := { x := none, y := none, radius := 150 }

/-- The `mousemove` listener (lines 20-23). -/
def onMouseMove (eventX eventY : K) (s : State K) : State K :=
  { s with mouse := { s.mouse with x := some eventX, y := some eventY } }

/-- The function `randomRange(min, max)` (lines 35-37); `r` is the value
returned by its `Math.random()` call. -/
def randomRange (r min max : K) : K := r * (max - min) + min

/-- The constructor of `Particle` (lines 41-54), with `calls` calls of
`Math.random()` made before it; returns the new particle and the new number
of calls. -/
def Particle.new (random : Nat → K) (canvas : Canvas K) (calls : Nat) :
    Particle K × Nat :=
  let x := random calls * canvas.width
  let y := random (calls + 1) * canvas.height
  let size := random (calls + 2) * 3 + 1
  let baseX := x
  let baseY := y
  let density := (random (calls + 3) * 30) + 1
  let vx := randomRange (random (calls + 4)) (-0.5) 0.5
  let vy := randomRange (random (calls + 5)) (-0.5) 0.5
  ({ x := fin x, y := fin y, size := size, baseX := fin baseX, baseY := fin baseY,
     density := density, vx := vx, vy := vy }, calls + 6)

/-- Step 1 of `update`, lines 66-67: the drift. -/
def Particle.drift (p : Particle K) : Particle K :=
  { p with x := p.x + fin p.vx, y := p.y + fin p.vy }

/-- One axis of the wrap, lines 70-71 (and 72-73): two successive `if`s. -/
def wrapAxis (limit : K) (x : JSNum K) : JSNum K :=
  let x := if x.lt (fin 0) then fin limit else x
  let x := if x.gt (fin limit) then fin 0 else x
  x

/-- Lines 70-73 of `update`: wrap around the screen edges. -/
def Particle.wrap (canvas : Canvas K) (p : Particle K) : Particle K :=
  { p with x := wrapAxis canvas.width p.x, y := wrapAxis canvas.height p.y }

/-- Line 88: `force = (maxDistance - distance) / maxDistance`. -/
def force (maxDistance distance : JSNum K) : JSNum K :=
  (maxDistance - distance) / maxDistance

/-- Step 2 of `update`, lines 76-97: the mouse interaction. -/
def Particle.repel (sqrt : K → K) (mouse : Mouse K) (p : Particle K) : Particle K :=
  let dx := ofUndefined mouse.x - p.x
  let dy := ofUndefined mouse.y - p.y
  let distance := msqrt sqrt (dx * dx + dy * dy)
  if distance.lt (fin mouse.radius) then
    let forceDirectionX := dx / distance
    let forceDirectionY := dy / distance
    let maxDistance := fin mouse.radius
    let force := force maxDistance distance
    let directionX := forceDirectionX * force * fin p.density
    let directionY := forceDirectionY * force * fin p.density
    { p with x := p.x - directionX, y := p.y - directionY }
  else p

/-- The method `Particle.update` (lines 64-100): drift, wrap, mouse
interaction.  The closing `this.draw()` paints on the canvas and assigns no
program variable. -/
def Particle.update (sqrt : K → K) (canvas : Canvas K) (mouse : Mouse K)
    (p : Particle K) : Particle K :=
  Particle.repel sqrt mouse (Particle.wrap canvas (Particle.drift p))

/-- The `for` loop of `initParticles` (lines 108-110), from counter `i`. -/
def initParticles.loop [FloorRing K] (random : Nat → K) (canvas : Canvas K) (numberOfParticles : K)
    (i : Nat) (arr : List (Particle K)) (calls : Nat) : List (Particle K) × Nat :=
  if _h : (i : K) < numberOfParticles then
    let r := Particle.new random canvas calls
    initParticles.loop random canvas numberOfParticles (i + 1) (arr ++ [r.1]) r.2
  else (arr, calls)
termination_by ⌈numberOfParticles⌉₊ - i
decreasing_by
  have h1 : i < ⌈numberOfParticles⌉₊ := Nat.lt_ceil.mpr (by assumption)
  omega

/-- The function `initParticles` (lines 103-111). -/
def initParticles [FloorRing K] (random : Nat → K) (s : State K) : State K :=
  let numberOfParticles := (s.canvas.height * s.canvas.width) / 9000
  let r := initParticles.loop random s.canvas numberOfParticles 0 [] s.calls
  { s with particlesArray := r.1, calls := r.2 }

/-- The function `resizeCanvas` (lines 26-30), with the window's inner size. -/
def resizeCanvas [FloorRing K] (random : Nat → K) (innerWidth innerHeight : K) (s : State K) :
    State K :=
  initParticles random { s with canvas := { width := innerWidth, height := innerHeight } }

end Defs

section Frame

variable {K : Type} [LinearOrderedField K]

/-- One run of `animate` (lines 113-125): every particle is updated in
place, in order.  `clearRect` and `requestAnimationFrame` assign no program
variable. -/
def animate (sqrt : K → K) (s : State K) : State K :=
  { s with particlesArray := s.particlesArray.map (Particle.update sqrt s.canvas s.mouse) }

/-- The arrow function `easeInOutCubic` (lines 177-182). -/
def easeInOutCubic (t b c d : JSNum K) : JSNum K :=
  let t := t / (d / fin 2)
  if t.lt (fin 1) then c / fin 2 * t * t * t + b
  else
    let t := t - fin 2
    c / fin 2 * (t * t * t + fin 2) + b

/-- The values computed by one call of the smooth-scroll `step` (lines
171-191) at `progress = timestamp - start`: the argument `y` of `scrollTo`
and whether another frame is requested.  `duration` is the constant 1500 and
`distance = finalPosition - startPosition`. -/
def step (startPosition finalPosition progress : JSNum K) : JSNum K × Bool :=
  let distance := finalPosition - startPosition
  let duration : JSNum K := fin 1500
  let y := easeInOutCubic progress startPosition distance duration
  (y, progress.lt duration)

/-- The position of a particle is finite and inside `[0, width) × [0, height)`. -/
def InViewport (canvas : Canvas K) (p : Particle K) : Prop :=
  ∃ x y : K, p.x = fin x ∧ p.y = fin y ∧
    0 ≤ x ∧ x < canvas.width ∧ 0 ≤ y ∧ y < canvas.height

/-- The fields set once by the constructor are in their sampling ranges. -/
def Particle.Ranges (p : Particle K) : Prop :=
  1 ≤ p.size ∧ p.size < 4 ∧ 1 ≤ p.density ∧ p.density < 31 ∧
    -0.5 ≤ p.vx ∧ p.vx < 0.5 ∧ -0.5 ≤ p.vy ∧ p.vy < 0.5

/-! ## Concrete inputs -/

/-- A particle on the left edge of the canvas, drifting to the left. -/
def edgeParticle : Particle K :=
  { x := fin 0, y := fin 450, size := 1, baseX := fin 0, baseY := fin 450,
    density := 1, vx := -0.25, vy := 0 }

/-- A heavy particle at rest one pixel from the left edge. -/
def heavyParticle : Particle K :=
  { x := fin 1, y := fin 450, size := 1, baseX := fin 1, baseY := fin 450,
    density := 30, vx := 0, vy := 0 }

/-- The particle of the repulsion scenario: at rest at `(500, 500)`, density 3. -/
def scenarioParticle : Particle K :=
  { x := fin 500, y := fin 500, size := 1, baseX := fin 500, baseY := fin 500,
    density := 3, vx := 0, vy := 0 }

/-- A stream of `Math.random()` results: every call returns 0.5. -/
def midDraws : Nat → K := fun _ => 0.5

/-- The pointer after a `mousemove` at `(eventX, eventY)`. -/
def mouseAt (eventX eventY : K) : Mouse K :=
  { x := some eventX, y := some eventY, radius := 150 }

end Frame

/-! ## Arithmetic of `JSNum` -/

@[simp] theorem ofUndefined_some {K : Type} (a : K) : ofUndefined (some a) = fin a := rfl
@[simp] theorem ofUndefined_none {K : Type} : ofUndefined (none : Option K) = nan := rfl

section Lemmas

variable {K : Type} [LinearOrderedField K]

@[simp] theorem fin_add_fin (a b : K) : (fin a + fin b : JSNum K) = fin (a + b) := rfl
@[simp] theorem fin_sub_fin (a b : K) : (fin a - fin b : JSNum K) = fin (a - b) := rfl
@[simp] theorem fin_mul_fin (a b : K) : (fin a * fin b : JSNum K) = fin (a * b) := rfl
theorem fin_div_fin (a b : K) :
    (fin a / fin b : JSNum K) = if b = 0 then nan else fin (a / b) := rfl
@[simp] theorem fin_div_fin_of_ne (a : K) {b : K} (hb : b ≠ 0) :
    (fin a / fin b : JSNum K) = fin (a / b) := by
  rw [fin_div_fin, if_neg hb]
@[simp] theorem fin_div_zero (a : K) : (fin a / fin 0 : JSNum K) = nan := by
  rw [fin_div_fin, if_pos rfl]
@[simp] theorem nan_add (a : JSNum K) : (nan + a : JSNum K) = nan := rfl
@[simp] theorem add_nan (a : JSNum K) : (a + nan : JSNum K) = nan := by cases a <;> rfl
@[simp] theorem nan_sub (a : JSNum K) : (nan - a : JSNum K) = nan := rfl
@[simp] theorem sub_nan (a : JSNum K) : (a - nan : JSNum K) = nan := by cases a <;> rfl
@[simp] theorem nan_mul (a : JSNum K) : (nan * a : JSNum K) = nan := rfl
@[simp] theorem mul_nan (a : JSNum K) : (a * nan : JSNum K) = nan := by cases a <;> rfl
@[simp] theorem nan_div (a : JSNum K) : (nan / a : JSNum K) = nan := rfl
@[simp] theorem div_nan (a : JSNum K) : (a / nan : JSNum K) = nan := by cases a <;> rfl
@[simp] theorem fin_lt_fin (a b : K) : (fin a).lt (fin b) = decide (a < b) := rfl
@[simp] theorem fin_gt_fin (a b : K) : (fin a).gt (fin b) = decide (b < a) := rfl
@[simp] theorem nan_lt (a : JSNum K) : (nan : JSNum K).lt a = false := rfl
@[simp] theorem lt_nan (a : JSNum K) : a.lt (nan : JSNum K) = false := by cases a <;> rfl
@[simp] theorem nan_gt (a : JSNum K) : (nan : JSNum K).gt a = false := rfl
@[simp] theorem gt_nan (a : JSNum K) : a.gt (nan : JSNum K) = false := by cases a <;> rfl
@[simp] theorem msqrt_nan (sqrt : K → K) : msqrt sqrt (nan : JSNum K) = nan := rfl
theorem msqrt_fin (sqrt : K → K) {a : K} (ha : 0 ≤ a) :
    msqrt sqrt (fin a) = fin (sqrt a) := by
  simp [msqrt, not_lt.mpr ha]

theorem sum_sq_nonneg (a b : K) : 0 ≤ a * a + b * b :=
  add_nonneg (mul_self_nonneg a) (mul_self_nonneg b)

/-- An exact square root is determined by its square. -/
theorem ExactSqrt.eq_of_mul_self {sqrt : K → K} (hs : ExactSqrt sqrt) {a b : K}
    (hb : 0 ≤ b) (h : b * b = a) : sqrt a = b := by
  have ha : 0 ≤ a := h ▸ mul_self_nonneg b
  obtain ⟨h0, h1⟩ := hs a ha
  exact (mul_self_inj h0 hb).mp (h1.trans h.symm)

theorem exactSqrt_real : ExactSqrt Real.sqrt :=
  fun a ha => ⟨Real.sqrt_nonneg a, Real.mul_self_sqrt ha⟩

/-! ## The wrap -/

theorem wrapAxis_nan (limit : K) : wrapAxis limit (nan : JSNum K) = nan := by
  simp [wrapAxis]

theorem wrapAxis_fin (limit x : K) :
    wrapAxis limit (fin x) = fin (if x < 0 then limit else if limit < x then 0 else x) := by
  unfold wrapAxis
  by_cases h1 : x < 0
  · simp [h1]
  · by_cases h2 : limit < x <;> simp [h1, h2]

theorem wrapAxis_fin_of_mem (limit x : K) (h0 : 0 ≤ x) (h1 : x ≤ limit) :
    wrapAxis limit (fin x) = fin x := by
  rw [wrapAxis_fin, if_neg (not_lt.mpr h0), if_neg (not_lt.mpr h1)]

theorem wrapAxis_bounds (limit x : K) (hl : 0 ≤ limit) :
    ∃ w, wrapAxis limit (fin x) = fin w ∧ 0 ≤ w ∧ w ≤ limit := by
  refine ⟨_, wrapAxis_fin limit x, ?_, ?_⟩
  · split_ifs with h1 h2
    · exact hl
    · exact le_refl _
    · exact not_lt.mp h1
  · split_ifs with h1 h2
    · exact le_refl _
    · exact hl
    · exact not_lt.mp h2

/-! ## The mouse interaction -/

theorem repel_of_undefined (sqrt : K → K) (mouse : Mouse K) (p : Particle K)
    (h : mouse.x = none ∨ mouse.y = none) : Particle.repel sqrt mouse p = p := by
  unfold Particle.repel
  rcases h with h | h <;> simp [h]

/-- The branch condition of `repel` on finite operands. -/
theorem repel_far (sqrt : K → K) (mouse : Mouse K) (p : Particle K) (mx my x y : K)
    (hmx : mouse.x = some mx) (hmy : mouse.y = some my)
    (hx : p.x = fin x) (hy : p.y = fin y)
    (h : mouse.radius ≤ sqrt ((mx - x) * (mx - x) + (my - y) * (my - y))) :
    Particle.repel sqrt mouse p = p := by
  unfold Particle.repel
  simp [hmx, hmy, hx, hy, msqrt_fin sqrt (sum_sq_nonneg (mx - x) (my - y)), not_lt.mpr h]

/-- The assignment made by the branch of `repel` on finite operands. -/
theorem repel_near (sqrt : K → K) (mouse : Mouse K) (p : Particle K) (mx my x y : K)
    (hmx : mouse.x = some mx) (hmy : mouse.y = some my)
    (hx : p.x = fin x) (hy : p.y = fin y)
    (hd : sqrt ((mx - x) * (mx - x) + (my - y) * (my - y)) ≠ 0)
    (hr : mouse.radius ≠ 0)
    (h : sqrt ((mx - x) * (mx - x) + (my - y) * (my - y)) < mouse.radius) :
    Particle.repel sqrt mouse p =
      { p with
        x := fin (x - (mx - x) / sqrt ((mx - x) * (mx - x) + (my - y) * (my - y)) *
              ((mouse.radius - sqrt ((mx - x) * (mx - x) + (my - y) * (my - y))) /
                mouse.radius) * p.density),
        y := fin (y - (my - y) / sqrt ((mx - x) * (mx - x) + (my - y) * (my - y)) *
              ((mouse.radius - sqrt ((mx - x) * (mx - x) + (my - y) * (my - y))) /
                mouse.radius) * p.density) } := by
  unfold Particle.repel force
  simp [hmx, hmy, hx, hy, msqrt_fin sqrt (sum_sq_nonneg (mx - x) (my - y)), h, hd, hr]

/-- With the pointer exactly on the particle the division is `0 / 0` and
both coordinates become NaN. -/
theorem repel_coincident (sqrt : K → K) (mouse : Mouse K) (p : Particle K) (mx my x y : K)
    (hmx : mouse.x = some mx) (hmy : mouse.y = some my)
    (hx : p.x = fin x) (hy : p.y = fin y)
    (hd : sqrt ((mx - x) * (mx - x) + (my - y) * (my - y)) = 0)
    (hr : 0 < mouse.radius) :
    Particle.repel sqrt mouse p = { p with x := nan, y := nan } := by
  unfold Particle.repel force
  simp [hmx, hmy, hx, hy, msqrt_fin sqrt (sum_sq_nonneg (mx - x) (my - y)), hd, hr]

/-- With an exact square root a zero distance means `dx = dy = 0`: the only
division by zero in `repel` is `0 / 0`. -/
theorem dist_eq_zero {sqrt : K → K} (hs : ExactSqrt sqrt) (dx dy : K)
    (h : sqrt (dx * dx + dy * dy) = 0) : dx = 0 ∧ dy = 0 := by
  have h1 := (hs _ (sum_sq_nonneg dx dy)).2
  rw [h, mul_zero] at h1
  have hx : dx * dx = 0 := by
    nlinarith [mul_self_nonneg dx, mul_self_nonneg dy]
  have hy : dy * dy = 0 := by
    nlinarith [mul_self_nonneg dx, mul_self_nonneg dy]
  exact ⟨mul_self_eq_zero.mp hx, mul_self_eq_zero.mp hy⟩

/-- Each component of the unit direction has absolute value at most 1. -/
theorem abs_component_le {sqrt : K → K} (hs : ExactSqrt sqrt) (dx dy : K)
    (hpos : 0 < sqrt (dx * dx + dy * dy)) :
    |dx / sqrt (dx * dx + dy * dy)| ≤ 1 ∧ |dy / sqrt (dx * dx + dy * dy)| ≤ 1 := by
  have h1 := (hs _ (sum_sq_nonneg dx dy)).2
  set d := sqrt (dx * dx + dy * dy) with hd
  have hx : |dx| ≤ d := by
    apply abs_le_of_sq_le_sq _ hpos.le
    nlinarith [mul_self_nonneg dy]
  have hy : |dy| ≤ d := by
    apply abs_le_of_sq_le_sq _ hpos.le
    nlinarith [mul_self_nonneg dx]
  constructor
  · rw [abs_div, abs_of_pos hpos]; exact (div_le_one hpos).mpr hx
  · rw [abs_div, abs_of_pos hpos]; exact (div_le_one hpos).mpr hy

/-- The bound on one coordinate of the displacement: at most `density`. -/
theorem abs_displacement_le (a f ρ : K) (ha : |a| ≤ 1) (hf0 : 0 ≤ f) (hf1 : f ≤ 1)
    (hρ : 0 ≤ ρ) : |a * f * ρ| ≤ ρ := by
  rw [abs_mul, abs_mul, abs_of_nonneg hf0, abs_of_nonneg hρ]
  have h1 : |a| * f ≤ 1 := by
    calc |a| * f ≤ 1 * 1 := mul_le_mul ha hf1 hf0 zero_le_one
      _ = 1 := one_mul 1
  calc |a| * f * ρ ≤ 1 * ρ := mul_le_mul_of_nonneg_right h1 hρ
    _ = ρ := one_mul ρ

/-- The squared length of the displacement `-(dx / d, dy / d) * a`. -/
theorem displacement_sq (dx dy d a : K) (hd : d ≠ 0) (h : d * d = dx * dx + dy * dy) :
    (-(dx / d) * a) * (-(dx / d) * a) + (-(dy / d) * a) * (-(dy / d) * a) = a * a := by
  field_simp
  linear_combination (-(a * a)) * h

/-- The squared distance to the pointer after a displacement of length `a`
away from it. -/
theorem pushed_sq (dx dy d a : K) (hd : d ≠ 0) (h : d * d = dx * dx + dy * dy) :
    (dx + dx / d * a) * (dx + dx / d * a) + (dy + dy / d * a) * (dy + dy / d * a) =
      (d + a) * (d + a) := by
  field_simp
  linear_combination (-(d + a) * (d + a)) * h

/-! ## `update` -/

theorem update_eq (sqrt : K → K) (canvas : Canvas K) (mouse : Mouse K) (p : Particle K) :
    Particle.update sqrt canvas mouse p =
      Particle.repel sqrt mouse (Particle.wrap canvas (Particle.drift p)) := rfl

theorem wrap_drift_x (canvas : Canvas K) (p : Particle K) :
    (Particle.wrap canvas (Particle.drift p)).x = wrapAxis canvas.width (p.x + fin p.vx) := rfl

theorem wrap_drift_y (canvas : Canvas K) (p : Particle K) :
    (Particle.wrap canvas (Particle.drift p)).y = wrapAxis canvas.height (p.y + fin p.vy) := rfl

theorem wrap_drift_density (canvas : Canvas K) (p : Particle K) :
    (Particle.wrap canvas (Particle.drift p)).density = p.density := rfl

/-- After the drift and the wrap a finite position is in the closed rectangle
`[0, width] × [0, height]`. -/
theorem wrap_drift_bounds (canvas : Canvas K) (p : Particle K) (x y : K)
    (hx : p.x = fin x) (hy : p.y = fin y)
    (hW : 0 ≤ canvas.width) (hH : 0 ≤ canvas.height) :
    ∃ xw yw : K, (Particle.wrap canvas (Particle.drift p)).x = fin xw ∧
      (Particle.wrap canvas (Particle.drift p)).y = fin yw ∧
      0 ≤ xw ∧ xw ≤ canvas.width ∧ 0 ≤ yw ∧ yw ≤ canvas.height := by
  obtain ⟨xw, h1, h2, h3⟩ := wrapAxis_bounds canvas.width (x + p.vx) hW
  obtain ⟨yw, h4, h5, h6⟩ := wrapAxis_bounds canvas.height (y + p.vy) hH
  refine ⟨xw, yw, ?_, ?_, h2, h3, h5, h6⟩
  · rw [wrap_drift_x, hx, fin_add_fin, h1]
  · rw [wrap_drift_y, hy, fin_add_fin, h4]

/-- The repulsion branch moves each coordinate by at most `density`. -/
theorem repel_near_bounds {sqrt : K → K} (hs : ExactSqrt sqrt) (mouse : Mouse K)
    (q : Particle K) (mx my xw yw : K)
    (hmx : mouse.x = some mx) (hmy : mouse.y = some my)
    (hx : q.x = fin xw) (hy : q.y = fin yw) (hρ : 0 ≤ q.density)
    (hpos : 0 < sqrt ((mx - xw) * (mx - xw) + (my - yw) * (my - yw)))
    (hlt : sqrt ((mx - xw) * (mx - xw) + (my - yw) * (my - yw)) < mouse.radius) :
    ∃ x1 y1 : K, (Particle.repel sqrt mouse q).x = fin x1 ∧
      (Particle.repel sqrt mouse q).y = fin y1 ∧
      |x1 - xw| ≤ q.density ∧ |y1 - yw| ≤ q.density := by
  have hr : 0 < mouse.radius := lt_trans hpos hlt
  rw [repel_near sqrt mouse q mx my xw yw hmx hmy hx hy hpos.ne' hr.ne' hlt]
  obtain ⟨hax, hay⟩ := abs_component_le hs (mx - xw) (my - yw) hpos
  have hf0 : 0 ≤ (mouse.radius -
      sqrt ((mx - xw) * (mx - xw) + (my - yw) * (my - yw))) / mouse.radius :=
    div_nonneg (sub_nonneg.mpr hlt.le) hr.le
  have hf1 : (mouse.radius -
      sqrt ((mx - xw) * (mx - xw) + (my - yw) * (my - yw))) / mouse.radius ≤ 1 := by
    rw [div_le_one hr]; linarith
  refine ⟨_, _, rfl, rfl, ?_, ?_⟩
  · rw [sub_sub_cancel_left, abs_neg]
    exact abs_displacement_le _ _ _ hax hf0 hf1 hρ
  · rw [sub_sub_cancel_left, abs_neg]
    exact abs_displacement_le _ _ _ hay hf0 hf1 hρ

end Lemmas

section MoreLemmas

variable {K : Type} [LinearOrderedField K]

/-! ## `force`, the constructor, the frame -/

theorem force_fin (r d : K) (hr : r ≠ 0) : force (fin r) (fin d) = fin ((r - d) / r) := by
  simp [force, hr]

theorem randomRange_mem (r min max : K) (h0 : 0 ≤ r) (h1 : r < 1) (h : min < max) :
    min ≤ randomRange r min max ∧ randomRange r min max < max := by
  unfold randomRange
  have hpos : 0 < max - min := sub_pos.mpr h
  constructor
  · nlinarith [mul_nonneg h0 hpos.le]
  · nlinarith [mul_lt_mul_of_pos_right h1 hpos]

theorem update_fields (sqrt : K → K) (canvas : Canvas K) (mouse : Mouse K) (p : Particle K) :
    (Particle.update sqrt canvas mouse p).vx = p.vx ∧
    (Particle.update sqrt canvas mouse p).vy = p.vy ∧
    (Particle.update sqrt canvas mouse p).size = p.size ∧
    (Particle.update sqrt canvas mouse p).density = p.density ∧
    (Particle.update sqrt canvas mouse p).baseX = p.baseX ∧
    (Particle.update sqrt canvas mouse p).baseY = p.baseY := by
  unfold Particle.update Particle.repel
  dsimp only
  split_ifs <;> exact ⟨rfl, rfl, rfl, rfl, rfl, rfl⟩

theorem animate_iterate_mouse (sqrt : K → K) (n : Nat) (s : State K) :
    ((animate sqrt)^[n] s).mouse = s.mouse ∧ ((animate sqrt)^[n] s).canvas = s.canvas ∧
    ((animate sqrt)^[n] s).calls = s.calls := by
  induction n generalizing s with
  | zero => exact ⟨rfl, rfl, rfl⟩
  | succ n ih =>
    rw [Function.iterate_succ_apply]
    obtain ⟨h1, h2, h3⟩ := ih (animate sqrt s)
    exact ⟨h1, h2, h3⟩

theorem animate_iterate_fields (sqrt : K → K) (n : Nat) (s : State K) :
    ((animate sqrt)^[n] s).particlesArray.map
        (fun p => (p.vx, p.vy, p.size, p.density, p.baseX, p.baseY)) =
      s.particlesArray.map (fun p => (p.vx, p.vy, p.size, p.density, p.baseX, p.baseY)) := by
  induction n generalizing s with
  | zero => rfl
  | succ n ih =>
    rw [Function.iterate_succ_apply, ih (animate sqrt s)]
    simp only [animate, List.map_map]
    apply List.map_congr_left
    intro p _
    obtain ⟨h1, h2, h3, h4, h5, h6⟩ := update_fields sqrt s.canvas s.mouse p
    simp only [Function.comp_apply, h1, h2, h3, h4, h5, h6]

/-! ## `easeInOutCubic` -/

theorem ease_fin (t b c d : K) (hd : d ≠ 0) :
    easeInOutCubic (fin t) (fin b) (fin c) (fin d) =
      fin (if t / (d / 2) < 1 then c / 2 * (t / (d / 2)) * (t / (d / 2)) * (t / (d / 2)) + b
        else c / 2 * ((t / (d / 2) - 2) * (t / (d / 2) - 2) * (t / (d / 2) - 2) + 2) + b) := by
  have h2 : (2 : K) ≠ 0 := two_ne_zero
  have hd2 : d / 2 ≠ 0 := div_ne_zero hd h2
  unfold easeInOutCubic
  by_cases h : t / (d / 2) < 1 <;> simp [h2, hd2, h]

/-- A point `b + c * s` with `0 ≤ s ≤ 1` is on the segment from `b` to `b + c`. -/
theorem segment_mem (b c s : K) (h0 : 0 ≤ s) (h1 : s ≤ 1) :
    min b (b + c) ≤ b + c * s ∧ b + c * s ≤ max b (b + c) := by
  rcases le_total 0 c with hc | hc
  · rw [min_eq_left (by linarith), max_eq_right (by linarith)]
    constructor
    · nlinarith [mul_nonneg hc h0]
    · nlinarith [mul_le_mul_of_nonneg_left h1 hc]
  · rw [min_eq_right (by linarith), max_eq_left (by linarith)]
    constructor
    · nlinarith [mul_le_mul_of_nonpos_left h1 hc]
    · nlinarith [mul_nonpos_of_nonpos_of_nonneg hc h0]

theorem ease_range (t b c d : K) (hd : 0 < d) (h0 : 0 ≤ t) (h1 : t ≤ d) :
    ∃ y : K, easeInOutCubic (fin t) (fin b) (fin c) (fin d) = fin y ∧
      min b (b + c) ≤ y ∧ y ≤ max b (b + c) := by
  refine ⟨_, ease_fin t b c d hd.ne', ?_⟩
  have hd2 : 0 < d / 2 := by positivity
  have hu0 : 0 ≤ t / (d / 2) := div_nonneg h0 hd2.le
  have hu2 : t / (d / 2) ≤ 2 := by
    rw [div_le_iff₀ hd2]; linarith
  generalize t / (d / 2) = u at hu0 hu2
  split_ifs with h
  · have e : c / 2 * u * u * u + b = b + c * (u * u * u / 2) := by ring
    rw [e]
    apply segment_mem
    · positivity
    · have : u * u * u ≤ 1 := by
        have h2 : u * u ≤ 1 := by nlinarith
        nlinarith [mul_nonneg hu0 hu0]
      linarith
  · have hu1 : 1 ≤ u := not_lt.mp h
    have e : c / 2 * ((u - 2) * (u - 2) * (u - 2) + 2) + b =
        b + c * (((u - 2) * (u - 2) * (u - 2) + 2) / 2) := by ring
    rw [e]
    have hv0 : 0 ≤ 2 - u := by linarith
    have hv1 : 2 - u ≤ 1 := by linarith
    have hv2 : (2 - u) * (2 - u) ≤ 1 := by nlinarith
    have hv3 : (2 - u) * (2 - u) * (2 - u) ≤ 1 := by
      nlinarith [mul_nonneg hv0 hv0]
    have hv4 : 0 ≤ (2 - u) * (2 - u) * (2 - u) := by positivity
    have e2 : (u - 2) * (u - 2) * (u - 2) = -((2 - u) * (2 - u) * (2 - u)) := by ring
    apply segment_mem
    · rw [e2]; linarith
    · rw [e2]; linarith

/-! ## The constructor and `initParticles` -/

theorem new_inViewport (random : Nat → K) (canvas : Canvas K) (calls : Nat)
    (hW : 0 < canvas.width) (hH : 0 < canvas.height)
    (hr : ∀ i, 0 ≤ random i ∧ random i < 1) :
    InViewport canvas (Particle.new random canvas calls).1 := by
  refine ⟨random calls * canvas.width, random (calls + 1) * canvas.height, rfl, rfl,
    mul_nonneg (hr _).1 hW.le, ?_, mul_nonneg (hr _).1 hH.le, ?_⟩
  · nlinarith [mul_lt_mul_of_pos_right (hr calls).2 hW]
  · nlinarith [mul_lt_mul_of_pos_right (hr (calls + 1)).2 hH]

theorem new_ranges (random : Nat → K) (canvas : Canvas K) (calls : Nat)
    (hr : ∀ i, 0 ≤ random i ∧ random i < 1) :
    Particle.Ranges (Particle.new random canvas calls).1 := by
  have h4 := randomRange_mem (random (calls + 4)) (-0.5) 0.5 (hr _).1 (hr _).2 (by norm_num)
  have h5 := randomRange_mem (random (calls + 5)) (-0.5) 0.5 (hr _).1 (hr _).2 (by norm_num)
  have h2 := hr (calls + 2)
  have h3 := hr (calls + 3)
  refine ⟨?_, ?_, ?_, ?_, h4.1, h4.2, h5.1, h5.2⟩
  · show 1 ≤ random (calls + 2) * 3 + 1
    linarith [h2.1]
  · show random (calls + 2) * 3 + 1 < 4
    linarith [h2.2]
  · show 1 ≤ random (calls + 3) * 30 + 1
    linarith [h3.1]
  · show random (calls + 3) * 30 + 1 < 31
    linarith [h3.2]

variable [FloorRing K]

theorem loop_unfold (random : Nat → K) (canvas : Canvas K) (n : K) (i : Nat)
    (arr : List (Particle K)) (calls : Nat) :
    initParticles.loop random canvas n i arr calls =
      if (i : K) < n then
        initParticles.loop random canvas n (i + 1)
          (arr ++ [(Particle.new random canvas calls).1]) (Particle.new random canvas calls).2
      else (arr, calls) := by
  rw [initParticles.loop]
  split_ifs <;> rfl

/-- The loop runs until the counter reaches the ceiling of the bound: it
appends `⌈n⌉₊ - i` particles. -/
theorem loop_length (random : Nat → K) (canvas : Canvas K) (n : K) :
    ∀ (k i : Nat) (arr : List (Particle K)) (calls : Nat), ⌈n⌉₊ - i = k →
      (initParticles.loop random canvas n i arr calls).1.length = arr.length + k := by
  intro k
  induction k with
  | zero =>
    intro i arr calls h
    have hi : ¬ (i : K) < n := fun hlt => by
      have := Nat.lt_ceil.mpr hlt
      omega
    rw [loop_unfold, if_neg hi]
    rfl
  | succ k ih =>
    intro i arr calls h
    have hi : (i : K) < n := Nat.lt_ceil.mp (by omega)
    rw [loop_unfold, if_pos hi, ih (i + 1) _ _ (by omega)]
    simp only [List.length_append, List.length_singleton]
    omega

/-- Every element of the array built by the loop was in the array before or
comes out of the constructor. -/
theorem loop_mem (random : Nat → K) (canvas : Canvas K) (n : K) :
    ∀ (k i : Nat) (arr : List (Particle K)) (calls : Nat), ⌈n⌉₊ - i = k →
      ∀ p ∈ (initParticles.loop random canvas n i arr calls).1,
        p ∈ arr ∨ ∃ c, p = (Particle.new random canvas c).1 := by
  intro k
  induction k with
  | zero =>
    intro i arr calls h p hp
    have hi : ¬ (i : K) < n := fun hlt => by
      have := Nat.lt_ceil.mpr hlt
      omega
    rw [loop_unfold, if_neg hi] at hp
    exact Or.inl hp
  | succ k ih =>
    intro i arr calls h p hp
    have hi : (i : K) < n := Nat.lt_ceil.mp (by omega)
    rw [loop_unfold, if_pos hi] at hp
    rcases ih (i + 1) _ _ (by omega) p hp with h1 | h1
    · rcases List.mem_append.mp h1 with h2 | h2
      · exact Or.inl h2
      · exact Or.inr ⟨calls, List.mem_singleton.mp h2⟩
    · exact Or.inr h1

theorem initParticles_length (random : Nat → K) (s : State K) :
    (initParticles random s).particlesArray.length =
      ⌈s.canvas.height * s.canvas.width / 9000⌉₊ := by
  unfold initParticles
  simp only
  rw [loop_length random s.canvas _ _ 0 [] s.calls rfl]
  simp

theorem initParticles_canvas (random : Nat → K) (s : State K) :
    (initParticles random s).canvas = s.canvas := rfl

theorem ceil_800_600 : ⌈(600 : K) * 800 / 9000⌉₊ = 54 := by
  rw [Nat.ceil_eq_iff (by norm_num)]
  constructor <;> norm_num

theorem floor_800_600 : ⌊(800 : K) * 600 / 9000⌋₊ = 53 := by
  rw [Nat.floor_eq_iff (by norm_num)]
  constructor <;> norm_num

end MoreLemmas

/-! ## Evaluation at the concrete inputs -/

section Concrete

theorem edgeParticle_inViewport : InViewport (⟨900, 900⟩ : Canvas ℝ) edgeParticle :=
  ⟨0, 450, rfl, rfl, by norm_num, by norm_num, by norm_num, by norm_num⟩

theorem edgeParticle_ranges : Particle.Ranges (edgeParticle : Particle ℝ) := by
  unfold Particle.Ranges edgeParticle; norm_num

theorem heavyParticle_inViewport : InViewport (⟨900, 900⟩ : Canvas ℝ) heavyParticle :=
  ⟨1, 450, rfl, rfl, by norm_num, by norm_num, by norm_num, by norm_num⟩

theorem heavyParticle_ranges : Particle.Ranges (heavyParticle : Particle ℝ) := by
  unfold Particle.Ranges heavyParticle; norm_num

theorem edgeParticle_wrap_drift :
    Particle.wrap (⟨900, 900⟩ : Canvas ℝ) (Particle.drift edgeParticle) =
      { (edgeParticle : Particle ℝ) with x := fin 900 } := by
  simp only [Particle.wrap, Particle.drift, edgeParticle, fin_add_fin, wrapAxis_fin]
  norm_num

theorem update_edgeParticle :
    Particle.update Real.sqrt ⟨900, 900⟩ mouse edgeParticle =
      { (edgeParticle : Particle ℝ) with x := fin 900 } := by
  rw [update_eq, repel_of_undefined _ _ _ (Or.inl rfl), edgeParticle_wrap_drift]

theorem heavyParticle_wrap_drift :
    Particle.wrap (⟨900, 900⟩ : Canvas ℝ) (Particle.drift heavyParticle) = heavyParticle := by
  simp only [Particle.wrap, Particle.drift, heavyParticle, fin_add_fin, wrapAxis_fin]
  norm_num

theorem update_heavyParticle :
    Particle.update Real.sqrt ⟨900, 900⟩ (mouseAt 2 450) heavyParticle =
      { (heavyParticle : Particle ℝ) with x := fin (-28.8) } := by
  have hd : Real.sqrt ((2 - 1) * (2 - 1) + (450 - 450) * (450 - 450)) = 1 := by norm_num
  rw [update_eq, heavyParticle_wrap_drift,
    repel_near Real.sqrt (mouseAt 2 450) heavyParticle 2 450 1 450 rfl rfl rfl rfl
      (by rw [hd]; norm_num) (by norm_num [mouseAt]) (by rw [hd]; norm_num [mouseAt])]
  rw [hd]
  simp only [heavyParticle, mouseAt]
  norm_num

theorem scenarioParticle_wrap_drift :
    Particle.wrap (⟨900, 900⟩ : Canvas ℝ) (Particle.drift scenarioParticle) =
      scenarioParticle := by
  simp only [Particle.wrap, Particle.drift, scenarioParticle, fin_add_fin, wrapAxis_fin]
  norm_num

theorem scenario_dist :
    Real.sqrt ((550 - 500) * (550 - 500) + (500 - 500) * (500 - 500)) = 50 :=
  exactSqrt_real.eq_of_mul_self (by norm_num) (by norm_num)

theorem edge_dist :
    Real.sqrt ((450 - 900) * (450 - 900) + (450 - 450) * (450 - 450)) = 450 :=
  exactSqrt_real.eq_of_mul_self (by norm_num) (by norm_num)

theorem edge_dist_before :
    Real.sqrt ((450 - 0) * (450 - 0) + (450 - 450) * (450 - 450)) = 450 :=
  exactSqrt_real.eq_of_mul_self (by norm_num) (by norm_num)

theorem update_edgeParticle_far :
    Particle.update Real.sqrt ⟨900, 900⟩ (mouseAt 450 450) edgeParticle =
      { (edgeParticle : Particle ℝ) with x := fin 900 } := by
  rw [update_eq, edgeParticle_wrap_drift]
  exact repel_far Real.sqrt (mouseAt 450 450) _ 450 450 900 450 rfl rfl rfl rfl
    (by rw [edge_dist]; norm_num [mouseAt])

end Concrete

/-! ## The claims on `update` -/

section UpdateClaims

variable {K : Type} [LinearOrderedField K]

/-- C1, counterexample.  On a 900 × 900 canvas, (1) with no pointer event
yet, the particle at `(0, 450)` with `vx = -0.25` is moved by `update` to
`x = 900 = W`, which is not `< W`; (2) with the pointer at `(2, 450)`, the
particle at rest at `(1, 450)` with density 30 is pushed by `update` to
`x = -28.8 < 0`.  Both inputs are inside the viewport with fields in the
constructor's ranges. -/
theorem update_inViewport_counterexample :
    (InViewport (⟨900, 900⟩ : Canvas ℝ) edgeParticle ∧
      Particle.Ranges (edgeParticle : Particle ℝ) ∧
      (Particle.update Real.sqrt ⟨900, 900⟩ mouse edgeParticle).x = fin 900 ∧
      ¬ InViewport ⟨900, 900⟩ (Particle.update Real.sqrt ⟨900, 900⟩ mouse edgeParticle)) ∧
    (InViewport (⟨900, 900⟩ : Canvas ℝ) heavyParticle ∧
      Particle.Ranges (heavyParticle : Particle ℝ) ∧
      (Particle.update Real.sqrt ⟨900, 900⟩ (mouseAt 2 450) heavyParticle).x = fin (-28.8) ∧
      ¬ InViewport ⟨900, 900⟩
        (Particle.update Real.sqrt ⟨900, 900⟩ (mouseAt 2 450) heavyParticle)) := by
  refine ⟨⟨edgeParticle_inViewport, edgeParticle_ranges, ?_, ?_⟩,
    ⟨heavyParticle_inViewport, heavyParticle_ranges, ?_, ?_⟩⟩
  · rw [update_edgeParticle]
  · rw [update_edgeParticle]
    rintro ⟨x, y, hx, -, -, h1, -, -⟩
    have h2 : (900 : ℝ) = x := JSNum.fin.inj hx
    rw [← h2] at h1
    exact lt_irrefl _ h1
  · rw [update_heavyParticle]
  · rw [update_heavyParticle]
    rintro ⟨x, y, hx, -, h0, -, -, -⟩
    have h2 : (-28.8 : ℝ) = x := JSNum.fin.inj hx
    rw [← h2] at h0
    norm_num at h0

/-- C1, amended.  For a viewport with `0 ≤ W`, `0 ≤ H`, a particle at a
finite position with `0 ≤ density`, and an exact square root: after the
drift and the wrap the position `(xw, yw)` satisfies `0 ≤ xw ≤ W` and
`0 ≤ yw ≤ H`; `update` leaves the particle there when a pointer coordinate is
undefined or the distance is at least the radius; and when the repulsion
branch is taken with a positive distance, the final position is finite with
`-density ≤ x ≤ W + density` and `-density ≤ y ≤ H + density`. -/
theorem update_position_bounds {sqrt : K → K} (hs : ExactSqrt sqrt) (canvas : Canvas K)
    (mouse : Mouse K) (p : Particle K) (x y : K) (hx : p.x = fin x) (hy : p.y = fin y)
    (hW : 0 ≤ canvas.width) (hH : 0 ≤ canvas.height) (hρ : 0 ≤ p.density) :
    ∃ xw yw : K, (Particle.wrap canvas (Particle.drift p)).x = fin xw ∧
      (Particle.wrap canvas (Particle.drift p)).y = fin yw ∧
      0 ≤ xw ∧ xw ≤ canvas.width ∧ 0 ≤ yw ∧ yw ≤ canvas.height ∧
      ((mouse.x = none ∨ mouse.y = none) →
        Particle.update sqrt canvas mouse p = Particle.wrap canvas (Particle.drift p)) ∧
      (∀ mx my : K, mouse.x = some mx → mouse.y = some my →
        (mouse.radius ≤ sqrt ((mx - xw) * (mx - xw) + (my - yw) * (my - yw)) →
          Particle.update sqrt canvas mouse p = Particle.wrap canvas (Particle.drift p)) ∧
        (0 < sqrt ((mx - xw) * (mx - xw) + (my - yw) * (my - yw)) →
          sqrt ((mx - xw) * (mx - xw) + (my - yw) * (my - yw)) < mouse.radius →
          ∃ x1 y1 : K, (Particle.update sqrt canvas mouse p).x = fin x1 ∧
            (Particle.update sqrt canvas mouse p).y = fin y1 ∧
            -p.density ≤ x1 ∧ x1 ≤ canvas.width + p.density ∧
            -p.density ≤ y1 ∧ y1 ≤ canvas.height + p.density)) := by
  obtain ⟨xw, yw, h1, h2, h3, h4, h5, h6⟩ := wrap_drift_bounds canvas p x y hx hy hW hH
  refine ⟨xw, yw, h1, h2, h3, h4, h5, h6, ?_, ?_⟩
  · intro h
    rw [update_eq, repel_of_undefined sqrt mouse _ h]
  · intro mx my hmx hmy
    constructor
    · intro h
      rw [update_eq, repel_far sqrt mouse _ mx my xw yw hmx hmy h1 h2 h]
    · intro hpos hlt
      obtain ⟨x1, y1, e1, e2, b1, b2⟩ :=
        repel_near_bounds hs mouse (Particle.wrap canvas (Particle.drift p)) mx my xw yw
          hmx hmy h1 h2 (by rw [wrap_drift_density]; exact hρ) hpos hlt
      rw [wrap_drift_density] at b1 b2
      rw [abs_le] at b1 b2
      refine ⟨x1, y1, by rw [update_eq, e1], by rw [update_eq, e2], ?_, ?_, ?_, ?_⟩ <;>
        linarith [b1.1, b1.2, b2.1, b2.2]

/-- C1, amended: the statement applied to the heavy particle with the
pointer at `(2, 450)` on a 900 × 900 canvas. -/
theorem update_position_bounds_witness :
    ExactSqrt Real.sqrt ∧ (heavyParticle : Particle ℝ).x = fin 1 ∧
    (heavyParticle : Particle ℝ).y = fin 450 ∧ (0 : ℝ) ≤ 900 ∧
    (0 : ℝ) ≤ (heavyParticle : Particle ℝ).density ∧
    ∃ xw yw : ℝ,
      (Particle.wrap (⟨900, 900⟩ : Canvas ℝ) (Particle.drift heavyParticle)).x = fin xw ∧
      (Particle.wrap (⟨900, 900⟩ : Canvas ℝ) (Particle.drift heavyParticle)).y = fin yw ∧
      0 ≤ xw ∧ xw ≤ 900 ∧ 0 ≤ yw ∧ yw ≤ 900 ∧
      (((mouseAt 2 450 : Mouse ℝ).x = none ∨ (mouseAt 2 450 : Mouse ℝ).y = none) →
        Particle.update Real.sqrt ⟨900, 900⟩ (mouseAt 2 450) heavyParticle =
          Particle.wrap ⟨900, 900⟩ (Particle.drift heavyParticle)) ∧
      (∀ mx my : ℝ, (mouseAt 2 450 : Mouse ℝ).x = some mx →
        (mouseAt 2 450 : Mouse ℝ).y = some my →
        ((mouseAt 2 450 : Mouse ℝ).radius ≤
            Real.sqrt ((mx - xw) * (mx - xw) + (my - yw) * (my - yw)) →
          Particle.update Real.sqrt ⟨900, 900⟩ (mouseAt 2 450) heavyParticle =
            Particle.wrap ⟨900, 900⟩ (Particle.drift heavyParticle)) ∧
        (0 < Real.sqrt ((mx - xw) * (mx - xw) + (my - yw) * (my - yw)) →
          Real.sqrt ((mx - xw) * (mx - xw) + (my - yw) * (my - yw)) <
            (mouseAt 2 450 : Mouse ℝ).radius →
          ∃ x1 y1 : ℝ,
            (Particle.update Real.sqrt ⟨900, 900⟩ (mouseAt 2 450) heavyParticle).x = fin x1 ∧
            (Particle.update Real.sqrt ⟨900, 900⟩ (mouseAt 2 450) heavyParticle).y = fin y1 ∧
            -(heavyParticle : Particle ℝ).density ≤ x1 ∧
            x1 ≤ 900 + (heavyParticle : Particle ℝ).density ∧
            -(heavyParticle : Particle ℝ).density ≤ y1 ∧
            y1 ≤ 900 + (heavyParticle : Particle ℝ).density)) :=
  ⟨exactSqrt_real, rfl, rfl, by norm_num, by norm_num [heavyParticle],
    update_position_bounds exactSqrt_real ⟨900, 900⟩ (mouseAt 2 450) heavyParticle 1 450
      rfl rfl (by norm_num) (by norm_num) (by norm_num [heavyParticle])⟩

/-- C6.  When `mouse.x` or `mouse.y` is undefined, `update` returns, for
every particle and canvas, exactly the particle produced by the drift
followed by the wrap: the repulsion branch is not taken.  (`update` is a
total function: there is no error outcome.) -/
theorem update_of_undefined_pointer (sqrt : K → K) (canvas : Canvas K) (mouse : Mouse K)
    (p : Particle K) (h : mouse.x = none ∨ mouse.y = none) :
    Particle.update sqrt canvas mouse p = Particle.wrap canvas (Particle.drift p) := by
  rw [update_eq, repel_of_undefined sqrt mouse _ h]

/-- C6: the statement applied to the initial `mouse` and the particle of the
scenario. -/
theorem update_of_undefined_pointer_witness :
    ((mouse : Mouse ℝ).x = none ∨ (mouse : Mouse ℝ).y = none) ∧
    Particle.update Real.sqrt ⟨900, 900⟩ mouse scenarioParticle =
      Particle.wrap ⟨900, 900⟩ (Particle.drift scenarioParticle) :=
  ⟨Or.inl rfl,
    update_of_undefined_pointer Real.sqrt ⟨900, 900⟩ mouse scenarioParticle (Or.inl rfl)⟩

/-- C3, counterexample.  On a 900 × 900 canvas with the pointer at
`(450, 450)`, the particle at `(0, 450)` with `vx = -0.25` is at distance 450
from the pointer, at least the radius 150, before the update and after the
wrap; `update` moves it to `x = 900`, not to `x + vx = -0.25`. -/
theorem update_drift_only_counterexample :
    (mouseAt 450 450 : Mouse ℝ).radius ≤
      Real.sqrt ((450 - 0) * (450 - 0) + (450 - 450) * (450 - 450)) ∧
    (mouseAt 450 450 : Mouse ℝ).radius ≤
      Real.sqrt ((450 - 900) * (450 - 900) + (450 - 450) * (450 - 450)) ∧
    (Particle.update Real.sqrt ⟨900, 900⟩ (mouseAt 450 450) edgeParticle).x = fin 900 ∧
    (edgeParticle : Particle ℝ).x + fin (edgeParticle : Particle ℝ).vx = fin (-0.25) ∧
    (Particle.update Real.sqrt ⟨900, 900⟩ (mouseAt 450 450) edgeParticle).x ≠
      (edgeParticle : Particle ℝ).x + fin (edgeParticle : Particle ℝ).vx := by
  have h : (edgeParticle : Particle ℝ).x + fin (edgeParticle : Particle ℝ).vx =
      fin (-0.25) := by
    simp only [edgeParticle, fin_add_fin]; norm_num
  refine ⟨?_, ?_, ?_, h, ?_⟩
  · rw [edge_dist_before]; norm_num [mouseAt]
  · rw [edge_dist]; norm_num [mouseAt]
  · rw [update_edgeParticle_far]
  · rw [update_edgeParticle_far, h]
    intro h1
    have h2 : (900 : ℝ) = -0.25 := JSNum.fin.inj h1
    norm_num at h2

/-- C3, amended.  With the pointer at defined coordinates `(mx, my)`, a
particle at a finite position `(x, y)` and `(xw, yw)` its position after the
drift and the wrap: if `radius ≤ dist((mx, my), (xw, yw))` then `update`
returns the drifted and wrapped particle (no repulsion term), so that
`x_after = x + vx` when `0 ≤ x + vx ≤ W` and `y_after = y + vy` when
`0 ≤ y + vy ≤ H`. -/
theorem update_far_drift_wrap (sqrt : K → K) (canvas : Canvas K) (mouse : Mouse K)
    (p : Particle K) (mx my x y xw yw : K)
    (hmx : mouse.x = some mx) (hmy : mouse.y = some my)
    (hx : p.x = fin x) (hy : p.y = fin y)
    (hxw : (Particle.wrap canvas (Particle.drift p)).x = fin xw)
    (hyw : (Particle.wrap canvas (Particle.drift p)).y = fin yw)
    (hfar : mouse.radius ≤ sqrt ((mx - xw) * (mx - xw) + (my - yw) * (my - yw))) :
    Particle.update sqrt canvas mouse p = Particle.wrap canvas (Particle.drift p) ∧
    (0 ≤ x + p.vx → x + p.vx ≤ canvas.width →
      (Particle.update sqrt canvas mouse p).x = fin (x + p.vx)) ∧
    (0 ≤ y + p.vy → y + p.vy ≤ canvas.height →
      (Particle.update sqrt canvas mouse p).y = fin (y + p.vy)) := by
  have h := repel_far sqrt mouse _ mx my xw yw hmx hmy hxw hyw hfar
  rw [update_eq, h]
  refine ⟨rfl, ?_, ?_⟩
  · intro h0 h1
    rw [wrap_drift_x, hx, fin_add_fin, wrapAxis_fin_of_mem _ _ h0 h1]
  · intro h0 h1
    rw [wrap_drift_y, hy, fin_add_fin, wrapAxis_fin_of_mem _ _ h0 h1]

/-- C3, amended: the statement applied to the particle at rest at
`(500, 500)` with the pointer at `(50, 500)`, at distance 450. -/
theorem update_far_drift_wrap_witness :
    (mouseAt 50 500 : Mouse ℝ).radius ≤
      Real.sqrt ((50 - 500) * (50 - 500) + (500 - 500) * (500 - 500)) ∧
    Particle.update Real.sqrt ⟨900, 900⟩ (mouseAt 50 500) scenarioParticle =
      Particle.wrap ⟨900, 900⟩ (Particle.drift scenarioParticle) ∧
    ((0 : ℝ) ≤ 500 + (scenarioParticle : Particle ℝ).vx →
      500 + (scenarioParticle : Particle ℝ).vx ≤ 900 →
      (Particle.update Real.sqrt ⟨900, 900⟩ (mouseAt 50 500) scenarioParticle).x =
        fin (500 + (scenarioParticle : Particle ℝ).vx)) ∧
    ((0 : ℝ) ≤ 500 + (scenarioParticle : Particle ℝ).vy →
      500 + (scenarioParticle : Particle ℝ).vy ≤ 900 →
      (Particle.update Real.sqrt ⟨900, 900⟩ (mouseAt 50 500) scenarioParticle).y =
        fin (500 + (scenarioParticle : Particle ℝ).vy)) :=
  have hd : Real.sqrt ((50 - 500) * (50 - 500) + (500 - 500) * (500 - 500)) = (450 : ℝ) :=
    exactSqrt_real.eq_of_mul_self (by norm_num) (by norm_num)
  have hfar : (mouseAt 50 500 : Mouse ℝ).radius ≤
      Real.sqrt ((50 - 500) * (50 - 500) + (500 - 500) * (500 - 500)) := by
    rw [hd]; norm_num [mouseAt]
  ⟨hfar, update_far_drift_wrap Real.sqrt ⟨900, 900⟩ (mouseAt 50 500) scenarioParticle
    50 500 500 500 500 500 rfl rfl rfl rfl
    (by rw [scenarioParticle_wrap_drift]; rfl) (by rw [scenarioParticle_wrap_drift]; rfl)
    hfar⟩

/-- C4.  With the pointer at defined coordinates `(mx, my)`, `(xw, yw)` the
drifted and wrapped position, `dist` the distance between them, `0 < dist <
radius` and `0 ≤ density`: `update` ends at a finite position `(x1, y1)` with
`(x1 - xw, y1 - yw) = -(dx / dist, dy / dist) * ((radius - dist) / radius) *
density`, where `dx = mx - xw` and `dy = my - yw`, and the Euclidean length of
this displacement is `((radius - dist) / radius) * density`. -/
theorem update_repulsion_displacement {sqrt : K → K} (hs : ExactSqrt sqrt)
    (canvas : Canvas K) (mouse : Mouse K) (p : Particle K) (mx my xw yw dist : K)
    (hmx : mouse.x = some mx) (hmy : mouse.y = some my)
    (hxw : (Particle.wrap canvas (Particle.drift p)).x = fin xw)
    (hyw : (Particle.wrap canvas (Particle.drift p)).y = fin yw)
    (hρ : 0 ≤ p.density)
    (hdist : sqrt ((mx - xw) * (mx - xw) + (my - yw) * (my - yw)) = dist)
    (hpos : 0 < dist) (hlt : dist < mouse.radius) :
    ∃ x1 y1 : K, (Particle.update sqrt canvas mouse p).x = fin x1 ∧
      (Particle.update sqrt canvas mouse p).y = fin y1 ∧
      x1 - xw = -((mx - xw) / dist) * (((mouse.radius - dist) / mouse.radius) * p.density) ∧
      y1 - yw = -((my - yw) / dist) * (((mouse.radius - dist) / mouse.radius) * p.density) ∧
      sqrt ((x1 - xw) * (x1 - xw) + (y1 - yw) * (y1 - yw)) =
        ((mouse.radius - dist) / mouse.radius) * p.density := by
  have hr : 0 < mouse.radius := lt_trans hpos hlt
  have hsq : dist * dist = (mx - xw) * (mx - xw) + (my - yw) * (my - yw) := by
    rw [← hdist]; exact (hs _ (sum_sq_nonneg _ _)).2
  have hf : 0 ≤ ((mouse.radius - dist) / mouse.radius) * p.density :=
    mul_nonneg (div_nonneg (sub_nonneg.mpr hlt.le) hr.le) hρ
  have hnear := repel_near sqrt mouse (Particle.wrap canvas (Particle.drift p)) mx my xw yw
    hmx hmy hxw hyw (by rw [hdist]; exact hpos.ne') hr.ne' (by rw [hdist]; exact hlt)
  rw [hdist, wrap_drift_density] at hnear
  rw [update_eq, hnear]
  refine ⟨_, _, rfl, rfl, by ring, by ring, ?_⟩
  apply hs.eq_of_mul_self hf
  rw [← displacement_sq (mx - xw) (my - yw) dist _ hpos.ne' hsq]
  ring

/-- C4: the scenario of the specification.  Canvas 900 × 900, particle at
`(500, 500)` with density 3, pointer at `(550, 500)`, radius 150: the distance
is 50, the force `(150 - 50) / 150`, and the particle is displaced by
`(150 - 50) / 150 * 3` along `-x`. -/
theorem update_repulsion_displacement_witness :
    ExactSqrt Real.sqrt ∧
    Real.sqrt ((550 - 500) * (550 - 500) + (500 - 500) * (500 - 500)) = (50 : ℝ) ∧
    (0 : ℝ) < 50 ∧ (50 : ℝ) < (mouseAt 550 500 : Mouse ℝ).radius ∧
    ∃ x1 y1 : ℝ,
      (Particle.update Real.sqrt ⟨900, 900⟩ (mouseAt 550 500) scenarioParticle).x = fin x1 ∧
      (Particle.update Real.sqrt ⟨900, 900⟩ (mouseAt 550 500) scenarioParticle).y = fin y1 ∧
      x1 - 500 = -((550 - 500) / 50) *
        ((((mouseAt 550 500 : Mouse ℝ).radius - 50) / (mouseAt 550 500 : Mouse ℝ).radius) *
          (scenarioParticle : Particle ℝ).density) ∧
      y1 - 500 = -((500 - 500) / 50) *
        ((((mouseAt 550 500 : Mouse ℝ).radius - 50) / (mouseAt 550 500 : Mouse ℝ).radius) *
          (scenarioParticle : Particle ℝ).density) ∧
      Real.sqrt ((x1 - 500) * (x1 - 500) + (y1 - 500) * (y1 - 500)) =
        (((mouseAt 550 500 : Mouse ℝ).radius - 50) / (mouseAt 550 500 : Mouse ℝ).radius) *
          (scenarioParticle : Particle ℝ).density :=
  ⟨exactSqrt_real, scenario_dist, by norm_num, by norm_num [mouseAt],
    update_repulsion_displacement exactSqrt_real ⟨900, 900⟩ (mouseAt 550 500)
      scenarioParticle 550 500 500 500 50 rfl rfl
      (by rw [scenarioParticle_wrap_drift]; rfl) (by rw [scenarioParticle_wrap_drift]; rfl)
      (by norm_num [scenarioParticle]) scenario_dist (by norm_num) (by norm_num [mouseAt])⟩

/-- C5.  With the pointer at defined coordinates `(mx, my)`, `(xw, yw)` the
position just before the repulsion step, `dist` the distance between them,
`0 < dist < radius` and `0 < density`: after `update` the distance from the
pointer to the particle is `dist + ((radius - dist) / radius) * density`,
strictly more than `dist`, and the new position is `pointer + t * (previous
position - pointer)` for some `t > 1`: it is on the ray from the pointer
through the previous position. -/
theorem update_repulsion_away {sqrt : K → K} (hs : ExactSqrt sqrt)
    (canvas : Canvas K) (mouse : Mouse K) (p : Particle K) (mx my xw yw dist : K)
    (hmx : mouse.x = some mx) (hmy : mouse.y = some my)
    (hxw : (Particle.wrap canvas (Particle.drift p)).x = fin xw)
    (hyw : (Particle.wrap canvas (Particle.drift p)).y = fin yw)
    (hρ : 0 < p.density)
    (hdist : sqrt ((mx - xw) * (mx - xw) + (my - yw) * (my - yw)) = dist)
    (hpos : 0 < dist) (hlt : dist < mouse.radius) :
    ∃ x1 y1 : K, (Particle.update sqrt canvas mouse p).x = fin x1 ∧
      (Particle.update sqrt canvas mouse p).y = fin y1 ∧
      sqrt ((mx - x1) * (mx - x1) + (my - y1) * (my - y1)) =
        dist + ((mouse.radius - dist) / mouse.radius) * p.density ∧
      dist < sqrt ((mx - x1) * (mx - x1) + (my - y1) * (my - y1)) ∧
      ∃ t : K, 1 < t ∧ x1 - mx = t * (xw - mx) ∧ y1 - my = t * (yw - my) := by
  have hr : 0 < mouse.radius := lt_trans hpos hlt
  have hsq : dist * dist = (mx - xw) * (mx - xw) + (my - yw) * (my - yw) := by
    rw [← hdist]; exact (hs _ (sum_sq_nonneg _ _)).2
  have hf : 0 < ((mouse.radius - dist) / mouse.radius) * p.density :=
    mul_pos (div_pos (sub_pos.mpr hlt) hr) hρ
  have hnear := repel_near sqrt mouse (Particle.wrap canvas (Particle.drift p)) mx my xw yw
    hmx hmy hxw hyw (by rw [hdist]; exact hpos.ne') hr.ne' (by rw [hdist]; exact hlt)
  rw [hdist, wrap_drift_density] at hnear
  rw [update_eq, hnear]
  have hnew : sqrt ((mx - (xw - (mx - xw) / dist *
        ((mouse.radius - dist) / mouse.radius) * p.density)) *
      (mx - (xw - (mx - xw) / dist * ((mouse.radius - dist) / mouse.radius) * p.density)) +
      (my - (yw - (my - yw) / dist * ((mouse.radius - dist) / mouse.radius) * p.density)) *
      (my - (yw - (my - yw) / dist * ((mouse.radius - dist) / mouse.radius) * p.density))) =
      dist + ((mouse.radius - dist) / mouse.radius) * p.density := by
    apply hs.eq_of_mul_self (add_pos hpos hf).le
    rw [← pushed_sq (mx - xw) (my - yw) dist _ hpos.ne' hsq]
    ring
  refine ⟨_, _, rfl, rfl, hnew, ?_, ?_⟩
  · rw [hnew]; linarith
  · refine ⟨1 + ((mouse.radius - dist) / mouse.radius) * p.density / dist, ?_, ?_, ?_⟩
    · have := div_pos hf hpos
      linarith
    · field_simp; ring
    · field_simp; ring

/-- C5: the scenario of the specification.  Canvas 900 × 900, particle at
`(500, 500)` with density 3, pointer at `(550, 500)`, radius 150: the distance
to the pointer grows from 50 to `50 + (150 - 50) / 150 * 3`. -/
theorem update_repulsion_away_witness :
    ExactSqrt Real.sqrt ∧ (0 : ℝ) < (scenarioParticle : Particle ℝ).density ∧
    Real.sqrt ((550 - 500) * (550 - 500) + (500 - 500) * (500 - 500)) = (50 : ℝ) ∧
    (0 : ℝ) < 50 ∧ (50 : ℝ) < (mouseAt 550 500 : Mouse ℝ).radius ∧
    ∃ x1 y1 : ℝ,
      (Particle.update Real.sqrt ⟨900, 900⟩ (mouseAt 550 500) scenarioParticle).x = fin x1 ∧
      (Particle.update Real.sqrt ⟨900, 900⟩ (mouseAt 550 500) scenarioParticle).y = fin y1 ∧
      Real.sqrt ((550 - x1) * (550 - x1) + (500 - y1) * (500 - y1)) =
        50 + (((mouseAt 550 500 : Mouse ℝ).radius - 50) /
          (mouseAt 550 500 : Mouse ℝ).radius) * (scenarioParticle : Particle ℝ).density ∧
      50 < Real.sqrt ((550 - x1) * (550 - x1) + (500 - y1) * (500 - y1)) ∧
      ∃ t : ℝ, 1 < t ∧ x1 - 550 = t * (500 - 550) ∧ y1 - 500 = t * (500 - 500) :=
  ⟨exactSqrt_real, by norm_num [scenarioParticle], scenario_dist, by norm_num,
    by norm_num [mouseAt],
    update_repulsion_away exactSqrt_real ⟨900, 900⟩ (mouseAt 550 500)
      scenarioParticle 550 500 500 500 50 rfl rfl
      (by rw [scenarioParticle_wrap_drift]; rfl) (by rw [scenarioParticle_wrap_drift]; rfl)
      (by norm_num [scenarioParticle]) scenario_dist (by norm_num) (by norm_num [mouseAt])⟩

end UpdateClaims

/-! ## The claims on seeding, the frame, the force and the easing -/

section OtherClaims

variable {K : Type} [LinearOrderedField K]

/-- C9.  For `radius > 0`: for every `dist` with `0 ≤ dist < radius` the force
factor computed at line 88 is the finite number `(radius - dist) / radius`,
it lies in `(0, 1]` and equals 1 exactly when `dist = 0`; and for
`0 ≤ d1 < d2 < radius` the force at `d1` is strictly larger than at `d2`. -/
theorem force_range_monotone (radius : K) (hr : 0 < radius) :
    (∀ dist : K, 0 ≤ dist → dist < radius →
      force (fin radius) (fin dist) = fin ((radius - dist) / radius) ∧
      0 < (radius - dist) / radius ∧ (radius - dist) / radius ≤ 1 ∧
      ((radius - dist) / radius = 1 ↔ dist = 0)) ∧
    (∀ d1 d2 : K, 0 ≤ d1 → d1 < d2 → d2 < radius →
      ∃ f1 f2 : K, force (fin radius) (fin d1) = fin f1 ∧
        force (fin radius) (fin d2) = fin f2 ∧ f2 < f1) := by
  constructor
  · intro dist h0 hlt
    refine ⟨force_fin radius dist hr.ne', div_pos (sub_pos.mpr hlt) hr, ?_, ?_⟩
    · rw [div_le_one hr]; linarith
    · rw [div_eq_one_iff_eq hr.ne']
      constructor
      · intro h; linarith
      · intro h; rw [h, sub_zero]
  · intro d1 d2 _ h12 _
    refine ⟨_, _, force_fin radius d1 hr.ne', force_fin radius d2 hr.ne', ?_⟩
    exact div_lt_div_of_pos_right (by linarith) hr

/-- C9: the statement at the radius 150 of `mouse`. -/
theorem force_range_monotone_witness :
    (0 : ℚ) < 150 ∧
    (∀ dist : ℚ, 0 ≤ dist → dist < 150 →
      force (fin 150) (fin dist) = fin ((150 - dist) / 150) ∧
      0 < (150 - dist) / 150 ∧ (150 - dist) / 150 ≤ 1 ∧
      ((150 - dist) / 150 = 1 ↔ dist = 0)) ∧
    (∀ d1 d2 : ℚ, 0 ≤ d1 → d1 < d2 → d2 < 150 →
      ∃ f1 f2 : ℚ, force (fin 150) (fin d1) = fin f1 ∧
        force (fin 150) (fin d2) = fin f2 ∧ f2 < f1) :=
  ⟨by norm_num, force_range_monotone (150 : ℚ) (by norm_num)⟩

/-- C8.  `update` leaves `vx`, `vy`, `size`, `density`, `baseX` and `baseY`
of the particle as they were (only `x` and `y` are assigned); over any number
`n` of frames of `animate` the record `mouse` and the canvas size are
unchanged and so are those six fields of every particle, in order; and
starting from the initial `mouse` the radius is 150, which is positive, after
every `n` frames. -/
theorem update_frame (sqrt : K → K) (canvas : Canvas K) (m : Mouse K) (p : Particle K)
    (s : State K) (n : Nat) :
    ((Particle.update sqrt canvas m p).vx = p.vx ∧
      (Particle.update sqrt canvas m p).vy = p.vy ∧
      (Particle.update sqrt canvas m p).size = p.size ∧
      (Particle.update sqrt canvas m p).density = p.density ∧
      (Particle.update sqrt canvas m p).baseX = p.baseX ∧
      (Particle.update sqrt canvas m p).baseY = p.baseY) ∧
    ((animate sqrt)^[n] s).mouse = s.mouse ∧
    ((animate sqrt)^[n] s).canvas = s.canvas ∧
    ((animate sqrt)^[n] s).particlesArray.map
        (fun q => (q.vx, q.vy, q.size, q.density, q.baseX, q.baseY)) =
      s.particlesArray.map (fun q => (q.vx, q.vy, q.size, q.density, q.baseX, q.baseY)) ∧
    ((animate sqrt)^[n] { s with mouse := mouse }).mouse.radius = 150 ∧
    (0 : K) < ((animate sqrt)^[n] { s with mouse := mouse }).mouse.radius := by
  have h := (animate_iterate_mouse sqrt n { s with mouse := mouse }).1
  refine ⟨update_fields sqrt canvas m p, (animate_iterate_mouse sqrt n s).1,
    (animate_iterate_mouse sqrt n s).2.1, animate_iterate_fields sqrt n s, ?_, ?_⟩
  · rw [h]; rfl
  · rw [h]; show (0 : K) < 150; norm_num

/-- C10.  For a duration `d > 0` and finite `b`, `c`: `easeInOutCubic` returns
`b` at `t = 0`, `b + c / 2` at `t = d / 2` and `b + c` at `t = d`; for every
`t` with `0 ≤ t ≤ d` it returns a finite number between `b` and `b + c`
inclusive; and the position computed by the scroll `step` at a `progress`
within its duration 1500 is between the start position and the final
position. -/
theorem easeInOutCubic_endpoints_range (b c d : K) (hd : 0 < d) :
    easeInOutCubic (fin 0) (fin b) (fin c) (fin d) = fin b ∧
    easeInOutCubic (fin (d / 2)) (fin b) (fin c) (fin d) = fin (b + c / 2) ∧
    easeInOutCubic (fin d) (fin b) (fin c) (fin d) = fin (b + c) ∧
    (∀ t : K, 0 ≤ t → t ≤ d →
      ∃ y : K, easeInOutCubic (fin t) (fin b) (fin c) (fin d) = fin y ∧
        min b (b + c) ≤ y ∧ y ≤ max b (b + c)) ∧
    (∀ startPosition finalPosition progress : K, 0 ≤ progress → progress ≤ 1500 →
      ∃ y : K, (step (fin startPosition) (fin finalPosition) (fin progress)).1 = fin y ∧
        min startPosition finalPosition ≤ y ∧ y ≤ max startPosition finalPosition) := by
  have hd2 : d / 2 ≠ 0 := (half_pos hd).ne'
  refine ⟨?_, ?_, ?_, fun t h0 h1 => ease_range t b c d hd h0 h1, ?_⟩
  · rw [ease_fin 0 b c d hd.ne', zero_div, if_pos zero_lt_one]
    congr 1; ring
  · rw [ease_fin _ b c d hd.ne', div_self hd2, if_neg (lt_irrefl 1)]
    congr 1; ring
  · have e : d / (d / 2) = 2 := by field_simp
    rw [ease_fin _ b c d hd.ne', e, if_neg (by norm_num)]
    congr 1; ring
  · intro sp fp progress h0 h1
    obtain ⟨y, hy, h2, h3⟩ := ease_range progress sp (fp - sp) 1500 (by norm_num) h0 h1
    refine ⟨y, hy, ?_, ?_⟩
    · rwa [add_sub_cancel] at h2
    · rwa [add_sub_cancel] at h3

/-- C10: the statement for a scroll from position 0 by 600 over the duration
1500 of `step`. -/
theorem easeInOutCubic_endpoints_range_witness :
    (0 : ℚ) < 1500 ∧
    easeInOutCubic (fin 0) (fin 0) (fin 600) (fin (1500 : ℚ)) = fin 0 ∧
    easeInOutCubic (fin (1500 / 2)) (fin 0) (fin 600) (fin (1500 : ℚ)) = fin (0 + 600 / 2) ∧
    easeInOutCubic (fin 1500) (fin 0) (fin 600) (fin (1500 : ℚ)) = fin (0 + 600) ∧
    (∀ t : ℚ, 0 ≤ t → t ≤ 1500 →
      ∃ y : ℚ, easeInOutCubic (fin t) (fin 0) (fin 600) (fin 1500) = fin y ∧
        min 0 (0 + 600) ≤ y ∧ y ≤ max 0 (0 + 600)) ∧
    (∀ startPosition finalPosition progress : ℚ, 0 ≤ progress → progress ≤ 1500 →
      ∃ y : ℚ, (step (fin startPosition) (fin finalPosition) (fin progress)).1 = fin y ∧
        min startPosition finalPosition ≤ y ∧ y ≤ max startPosition finalPosition) :=
  ⟨by norm_num, easeInOutCubic_endpoints_range (0 : ℚ) 600 1500 (by norm_num)⟩

variable [FloorRing K]

/-- C7.  For a canvas with `W > 0`, `H > 0` and random draws all in `[0, 1)`,
the particle built by the constructor has a finite position with `0 ≤ x < W`
and `0 ≤ y < H`, `size` in `[1, 4)`, `density` in `[1, 31)`, `vx` and `vy` in
`[-0.5, 0.5)`, `baseX = x` and `baseY = y`; the same holds for every particle
of the array left by `initParticles`; and `randomRange(min, max)` lies in
`[min, max)` whenever `min < max`. -/
theorem constructor_ranges (random : Nat → K) (canvas : Canvas K) (calls : Nat)
    (hW : 0 < canvas.width) (hH : 0 < canvas.height)
    (hr : ∀ i, 0 ≤ random i ∧ random i < 1) :
    (InViewport canvas (Particle.new random canvas calls).1 ∧
      Particle.Ranges (Particle.new random canvas calls).1 ∧
      (Particle.new random canvas calls).1.baseX = (Particle.new random canvas calls).1.x ∧
      (Particle.new random canvas calls).1.baseY = (Particle.new random canvas calls).1.y) ∧
    (∀ (m : Mouse K) (arr : List (Particle K)),
      ∀ p ∈ (initParticles random ⟨canvas, m, arr, calls⟩).particlesArray,
        InViewport canvas p ∧ Particle.Ranges p ∧ p.baseX = p.x ∧ p.baseY = p.y) ∧
    (∀ r min max : K, 0 ≤ r → r < 1 → min < max →
      min ≤ randomRange r min max ∧ randomRange r min max < max) := by
  refine ⟨⟨new_inViewport random canvas calls hW hH hr, new_ranges random canvas calls hr,
    rfl, rfl⟩, ?_, fun r min max h0 h1 h => randomRange_mem r min max h0 h1 h⟩
  intro m arr p hp
  rcases loop_mem random canvas _ _ 0 [] calls rfl p hp with h | ⟨c, rfl⟩
  · exact absurd h (List.not_mem_nil p)
  · exact ⟨new_inViewport random canvas c hW hH hr, new_ranges random canvas c hr, rfl, rfl⟩

/-- C7: the statement on a 900 × 900 canvas with every draw equal to 0.5. -/
theorem constructor_ranges_witness :
    (0 : ℚ) < (⟨900, 900⟩ : Canvas ℚ).width ∧ (0 : ℚ) < (⟨900, 900⟩ : Canvas ℚ).height ∧
    (∀ i, 0 ≤ (midDraws : Nat → ℚ) i ∧ (midDraws : Nat → ℚ) i < 1) ∧
    InViewport (⟨900, 900⟩ : Canvas ℚ) (Particle.new midDraws ⟨900, 900⟩ 0).1 ∧
    Particle.Ranges (Particle.new (midDraws : Nat → ℚ) ⟨900, 900⟩ 0).1 :=
  have h := constructor_ranges (midDraws : Nat → ℚ) ⟨900, 900⟩ 0 (by norm_num) (by norm_num)
    (fun _ => by norm_num [midDraws])
  ⟨by norm_num, by norm_num, fun _ => by norm_num [midDraws], h.1.1, h.1.2.1⟩

/-- C2, counterexample.  On an 800 × 600 canvas `initParticles` leaves 54
particles, while `floor(800 * 600 / 9000) = 53`. -/
theorem initParticles_floor_counterexample :
    (initParticles (midDraws : Nat → ℚ) ⟨⟨800, 600⟩, mouse, [], 0⟩).particlesArray.length
      = 54 ∧
    ⌊(800 : ℚ) * 600 / 9000⌋₊ = 53 ∧
    (initParticles (midDraws : Nat → ℚ) ⟨⟨800, 600⟩, mouse, [], 0⟩).particlesArray.length
      ≠ ⌊(800 : ℚ) * 600 / 9000⌋₊ := by
  have h1 : (initParticles (midDraws : Nat → ℚ)
      ⟨⟨800, 600⟩, mouse, [], 0⟩).particlesArray.length = 54 := by
    rw [initParticles_length]; exact ceil_800_600
  refine ⟨h1, floor_800_600, ?_⟩
  rw [h1, floor_800_600]
  decide

/-- C2, amended.  For every canvas size and every prior content of
`particlesArray`, `initParticles` leaves exactly `ceil(H * W / 9000)`
particles (none when the quotient is not positive); in particular a resize to
800 × 600 leaves 54 particles, and so does a second one in a row. -/
theorem initParticles_cardinality (random : Nat → K) (s : State K) :
    (initParticles random s).particlesArray.length =
      ⌈s.canvas.height * s.canvas.width / 9000⌉₊ ∧
    (resizeCanvas random 800 600 s).particlesArray.length = 54 ∧
    (resizeCanvas random 800 600 (resizeCanvas random 800 600 s)).particlesArray.length
      = 54 := by
  refine ⟨initParticles_length random s, ?_, ?_⟩
  · unfold resizeCanvas
    rw [initParticles_length]; exact ceil_800_600
  · unfold resizeCanvas
    rw [initParticles_length]; exact ceil_800_600

end OtherClaims

end Script
